import Mathlib

/-!
Verification of the crawl/fetch/merge pipeline of `download_ebook.js`.

The JavaScript source is shallowly embedded: every effectful collaborator
(HTTP GET, URL parsing of relative references, selector-driven extraction)
is passed in as an explicit function-valued capability, and each source
function becomes a pure Lean function over those capabilities.  Fallible
operations return `Except String _`, mirroring thrown `Error` values whose
`message` is the carried string.
-/

namespace Ebook

/-! ## `resolveUrl` (source lines 69–76)

`resolveUrl(url, baseUrl)` returns `null` for a falsy `url`, returns `url`
unchanged when it already starts with `http://` or `https://`, and otherwise
parses `baseUrl` and resolves `url` against it via the WHATWG `URL`
constructor.  The constructor is a collaborator capability here:
`parse rel base` yields the resolved absolute href or an error (the thrown
`TypeError` for an invalid base).  A `none` url models JS `null`/`undefined`;
the empty string is likewise falsy. -/

def charsStartWith : List Char → List Char → Bool
  | [], _ => true
  | _ :: _, [] => false
  | p :: ps, c :: cs => p == c && charsStartWith ps cs

/-- JavaScript `String.prototype.startsWith`, reducing definitionally. -/
def jsStartsWith (s p : String) : Bool := charsStartWith p.data s.data

/-- JavaScript `String.prototype.includes` for a single character, reducing
definitionally. -/
def jsIncludes (s : String) (c : Char) : Bool := s.data.any (fun x => x == c)

def resolveUrl (parse : String → String → Except String String)
    (url : Option String) (baseUrl : String) : Except String (Option String) :=
  match url with
  | none => .ok none
  | some u =>
    if u = "" then .ok none
    else if jsStartsWith u "http://" || jsStartsWith u "https://" then .ok (some u)
    else
      match parse u baseUrl with
      | .ok href => .ok (some href)
      | .error e => .error e

/-! ## `fetchWithRetry` (source lines 116–145)

The underlying `axios.get` is the capability `oracle : Nat → Except String
String`, giving the outcome of the GET on each attempt (0-based).  The
function returns both the final outcome and the ordered list of backoff
waits (in ms) actually performed, so the retry schedule is observable.

The backoff for attempt `i` is `delays[i] || delays[delays.length - 1]`:
JavaScript `||` falls through to the last entry not only when the index is
out of range (`undefined`) but also when the entry is `0` (falsy).  A
missing/`undefined` delay makes `setTimeout` fire immediately, i.e. a 0 ms
wait, hence the `getD 0`. -/

def delayFor (delays : List Nat) (attempt : Nat) : Nat :=
  match delays.get? attempt with
  | some d => if d = 0 then delays.getLast?.getD 0 else d
  | none => delays.getLast?.getD 0

/-- The message of the error thrown after all attempts fail (source line
144).  `lastErr = none` models `maxAttempts = 0`, where the loop never ran
and reading `lastError.message` from `undefined` throws a `TypeError`. -/
def retryErrMsg (maxAttempts : Nat) (lastErr : Option String) : String :=
  match lastErr with
  | some msg => "请求失败，已重试 " ++ toString maxAttempts ++ " 次: " ++ msg
  | none => "TypeError: cannot read message of undefined"

/-- The retry loop, structurally recursive on the number of remaining
attempts (`remaining = maxAttempts - attempt`).  `remaining = r + 1` means
the loop guard `attempt < maxAttempts` holds; `r = 0` means this is the
final attempt (`attempt === maxAttempts - 1`), after which a failure throws
without a further wait. -/
def fetchAux (oracle : Nat → Except String String) (delays : List Nat)
    (maxAttempts : Nat) :
    Nat → Nat → Option String → Except String String × List Nat
  | 0, _, lastErr => (.error (retryErrMsg maxAttempts lastErr), [])
  | r + 1, attempt, _ =>
    match oracle attempt with
    | .ok v => (.ok v, [])
    | .error e =>
      if r = 0 then (.error (retryErrMsg maxAttempts (some e)), [])
      else
        let res := fetchAux oracle delays maxAttempts r (attempt + 1) (some e)
        (res.1, delayFor delays attempt :: res.2)

def fetchWithRetry (oracle : Nat → Except String String)
    (maxAttempts : Nat) (delays : List Nat) : Except String String × List Nat :=
  fetchAux oracle delays maxAttempts maxAttempts 0 none

/-! ## Chapter-list collection: `getChapterList` (source lines 192–269)

Collaborator capabilities:
- `fetch url` is the outcome of `fetchWithRetry(url, config.retry)`: the
  page's HTML, or the error thrown after retries are exhausted;
- `extractPagination html` is the list of `value` attributes enumerated from
  the chapter-group pagination control's options (empty when the selector is
  unconfigured or matches nothing);
- `extractLinks html` is the list of `(href, anchorText)` pairs produced by
  the container → list → item → link selector chain, with `""` standing for
  a missing (`undefined`) attribute and the text already `.trim()`-ed.
-/

structure ChapterRef where
  url : String
  title : String
deriving DecidableEq, Repr

/-- The canonical deduplication key `fullUrl.split("?")[0]`: the prefix
before the first `?` (the whole string when there is none). -/
def stripQuery (s : String) : String :=
  String.mk (s.data.takeWhile (fun c => c ≠ '?'))

/-- JavaScript `String.prototype.trim()`: strip whitespace from both ends.
(Defined on the character list so it reduces definitionally; `String.trim`
is extensionally the same but is compiled through `String.Iterator`.) -/
def jsTrim (s : String) : String :=
  String.mk
    (((s.data.dropWhile (fun c => c.isWhitespace)).reverse.dropWhile
        (fun c => c.isWhitespace)).reverse)

def chapterKey (c : ChapterRef) : String := stripQuery c.url

/-- One step of the pagination-URL accumulation (source lines 212–220):
skip falsy option values, resolve the rest, and push unseen absolute URLs.
A throwing `resolveUrl` here is not inside any `try`, so it propagates. -/
def addPaginationUrl (parse : String → String → Except String String)
    (baseUrl : String) (urls : List String) (value : String) :
    Except String (List String) :=
  if value = "" then .ok urls
  else
    match resolveUrl parse (some value) baseUrl with
    | .error e => .error e
    | .ok none => .ok urls
    | .ok (some fullUrl) =>
      if fullUrl ∈ urls then .ok urls else .ok (urls ++ [fullUrl])

/-- The list `paginationUrls` starts as `[mainUrl]` (source line 203) and accumulates
the resolved option values in document order. -/
def buildPaginationUrls (parse : String → String → Except String String)
    (baseUrl mainUrl : String) (values : List String) :
    Except String (List String) :=
  values.foldlM (addPaginationUrl parse baseUrl) [mainUrl]

/-- The per-item collection body (source lines 243–261) over one
index page's extracted `(href, title)` items, threading the dedup state
`(chapterSet, chapters)`.  `if (href && title)` skips entries with either
field falsy.  `resolveUrl` throwing (or returning `null`, which would make
`fullUrl.split` throw) aborts the rest of this page's items: the exception
escapes `.each` into the per-page `try`, and the state mutated so far is
kept. -/
def collectItems (parse : String → String → Except String String)
    (baseUrl : String) :
    List (String × String) → List String × List ChapterRef →
    List String × List ChapterRef
  | [], st => st
  | (href, title) :: rest, (seen, chs) =>
    if href = "" ∨ title = "" then collectItems parse baseUrl rest (seen, chs)
    else
      match resolveUrl parse (some href) baseUrl with
      | .ok (some fullUrl) =>
        let urlKey := stripQuery fullUrl
        if urlKey ∈ seen then collectItems parse baseUrl rest (seen, chs)
        else
          collectItems parse baseUrl rest
            (urlKey :: seen, chs ++ [⟨fullUrl, title⟩])
      | _ => (seen, chs)

/-- The sequential per-page loop (source lines 229–265): each page is fetched
inside a `try`; a fetch failure logs and skips that page, keeping the state
accumulated so far. -/
def collectPages (fetch : String → Except String String)
    (extractLinks : String → List (String × String))
    (parse : String → String → Except String String) (baseUrl : String) :
    List String → List String × List ChapterRef →
    List String × List ChapterRef
  | [], st => st
  | pageUrl :: rest, st =>
    match fetch pageUrl with
    | .error _ => collectPages fetch extractLinks parse baseUrl rest st
    | .ok html =>
      collectPages fetch extractLinks parse baseUrl rest
        (collectItems parse baseUrl (extractLinks html) st)

/-- The collector `getChapterList` (source lines 192–269).  The initial fetch of the main
index page (line 198) is *not* inside a `try`, so its failure propagates;
so does a throwing `resolveUrl` during pagination-option handling (line
215).  The collection loop itself tolerates per-page fetch failures. -/
def getChapterList (fetch : String → Except String String)
    (extractPagination : String → List String)
    (extractLinks : String → List (String × String))
    (parse : String → String → Except String String)
    (baseUrl mainUrl : String) : Except String (List ChapterRef) :=
  match fetch mainUrl with
  | .error e => .error e
  | .ok mainHtml =>
    match buildPaginationUrls parse baseUrl mainUrl (extractPagination mainHtml) with
    | .error e => .error e
    | .ok paginationUrls =>
      .ok (collectPages fetch extractLinks parse baseUrl paginationUrls ([], [])).2

/-! ### Specification-side reference for deduplication

`specDedup` is written from the spec's words (§4.3/§8): keep each canonical
key's **first-seen** entry, in first-seen order.  The collector is proved to
refine it. -/

def dedupStep (acc : List ChapterRef) (c : ChapterRef) : List ChapterRef :=
  if chapterKey c ∈ acc.map chapterKey then acc else acc ++ [c]

def specDedup (l : List ChapterRef) : List ChapterRef := l.foldl dedupStep []

/-- The stream of chapter candidates one index page contributes, in document
order: invalid (falsy-field) items are skipped, and a failing `resolveUrl`
truncates the remainder of the page (mirroring `collectItems`). -/
def pageItems (parse : String → String → Except String String)
    (baseUrl : String) : List (String × String) → List ChapterRef
  | [] => []
  | (href, title) :: rest =>
    if href = "" ∨ title = "" then pageItems parse baseUrl rest
    else
      match resolveUrl parse (some href) baseUrl with
      | .ok (some fullUrl) => ⟨fullUrl, title⟩ :: pageItems parse baseUrl rest
      | _ => []

/-- The full candidate stream over the scanned index pages: pages whose fetch
failed contribute nothing. -/
def effItems (fetch : String → Except String String)
    (extractLinks : String → List (String × String))
    (parse : String → String → Except String String) (baseUrl : String)
    (pageUrls : List String) : List ChapterRef :=
  pageUrls.foldr
    (fun u acc =>
      (match fetch u with
       | .ok html => pageItems parse baseUrl (extractLinks html)
       | .error _ => []) ++ acc) []

/-! ## Title cleaning: `cleanTitle` (source lines 95–99)

`title.replace(/\s*\(?\d+\s*\/\s*\d+\)?\s*/g, "").trim()` removes every
pagination marker of the shape "(12 / 34)" (parentheses optional).  The
pattern always consumes at least one digit, so the regex never matches the
empty string; the global replace scans left to right, restarting after each
removed match. -/

def skipWs (l : List Char) : List Char := l.dropWhile (fun c => c.isWhitespace)

def dropOpenParen : List Char → List Char
  | '(' :: r => r
  | l => l

def dropCloseParen : List Char → List Char
  | ')' :: r => r
  | l => l

/-- Matcher for the `\d+\)?\s*` tail of the marker pattern against `l5`; on
success returns the unconsumed remainder. -/
def markerAfterSlash (l5 : List Char) : Option (List Char) :=
  if (l5.takeWhile Char.isDigit).isEmpty then none
  else some (skipWs (dropCloseParen (l5.drop (l5.takeWhile Char.isDigit).length)))

/-- Matches the `\d+\s*\/\s*\d+\)?\s*` part of the marker against `l2`. -/
def markerAfterParen (l2 : List Char) : Option (List Char) :=
  if (l2.takeWhile Char.isDigit).isEmpty then none
  else
    match skipWs (l2.drop (l2.takeWhile Char.isDigit).length) with
    | '/' :: l4 => markerAfterSlash (skipWs l4)
    | _ => none

/-- Try to match `\s*\(?\d+\s*\/\s*\d+\)?\s*` at the head of `l`; on success
return the unconsumed remainder.  Greedy matching of each `\s*`/`\d+` piece
coincides with the regex here because no piece can steal characters the next
piece needs. -/
def tryPageMarker (l : List Char) : Option (List Char) :=
  markerAfterParen (dropOpenParen (skipWs l))

theorem skipWs_length_le (l : List Char) : (skipWs l).length ≤ l.length :=
  (List.dropWhile_sublist _).length_le

theorem dropOpenParen_length_le (l : List Char) :
    (dropOpenParen l).length ≤ l.length := by
  unfold dropOpenParen
  split
  · simp
  · exact le_rfl

theorem dropCloseParen_length_le (l : List Char) :
    (dropCloseParen l).length ≤ l.length := by
  unfold dropCloseParen
  split
  · simp
  · exact le_rfl

theorem markerAfterSlash_length_le {l5 r : List Char}
    (h : markerAfterSlash l5 = some r) : r.length ≤ l5.length := by
  unfold markerAfterSlash at h
  split at h
  · exact absurd h (by simp)
  · simp only [Option.some.injEq] at h
    subst h
    calc (skipWs (dropCloseParen (l5.drop (l5.takeWhile Char.isDigit).length))).length
        ≤ (l5.drop (l5.takeWhile Char.isDigit).length).length :=
          le_trans (skipWs_length_le _) (dropCloseParen_length_le _)
      _ ≤ l5.length := by rw [List.length_drop]; omega

theorem markerAfterParen_length_lt {l2 r : List Char}
    (h : markerAfterParen l2 = some r) : r.length < l2.length := by
  unfold markerAfterParen at h
  split at h
  · exact absurd h (by simp)
  · rename_i hd1
    have hd1len : 1 ≤ (l2.takeWhile Char.isDigit).length := by
      cases hne : l2.takeWhile Char.isDigit with
      | nil => rw [hne] at hd1; simp at hd1
      | cons a d => simp
    have htw : (l2.takeWhile Char.isDigit).length ≤ l2.length :=
      (List.takeWhile_sublist _).length_le
    have hdrople : (l2.drop (l2.takeWhile Char.isDigit).length).length < l2.length := by
      rw [List.length_drop]; omega
    split at h
    · rename_i l4 heq
      have hl4 : l4.length < (l2.drop (l2.takeWhile Char.isDigit).length).length := by
        have hle := skipWs_length_le (l2.drop (l2.takeWhile Char.isDigit).length)
        rw [heq] at hle
        simp [List.length_drop] at hle ⊢
        omega
      calc r.length ≤ (skipWs l4).length := markerAfterSlash_length_le h
        _ ≤ l4.length := skipWs_length_le _
        _ < (l2.drop (l2.takeWhile Char.isDigit).length).length := hl4
        _ < l2.length := hdrople
    · exact absurd h (by simp)

theorem tryPageMarker_length_lt {l r : List Char}
    (h : tryPageMarker l = some r) : r.length < l.length :=
  lt_of_lt_of_le (markerAfterParen_length_lt h)
    (le_trans (dropOpenParen_length_le _) (skipWs_length_le _))

/-- The global replace: scan left to right, removing each pagination marker
and resuming after it, otherwise keeping the character. -/
def cleanCore (l : List Char) : List Char :=
  match l with
  | [] => []
  | c :: rest =>
    match h : tryPageMarker (c :: rest) with
    | some remaining => cleanCore remaining
    | none => c :: cleanCore rest
termination_by l.length
decreasing_by
  · exact tryPageMarker_length_lt h
  · simp

/-- Title cleaning, `cleanTitle` (source lines 95–99): falsy titles pass through; otherwise
strip all pagination markers, then `.trim()`. -/
def cleanTitle (title : String) : String :=
  if title = "" then ""
  else jsTrim (String.mk (cleanCore title.data))

/-! ## Per-chapter page-following loop: `downloadChapterPages`
(source lines 281–366)

Capability: `page url` is the combined outcome of `fetchWithRetry` plus the
cheerio extraction on that page — the title selector's trimmed text, the
content selector's text (script/style removed, `.trim()` applied in the
loop), and the next-page candidates' `href` attributes in document order
(`""` for a missing attribute).  A fetch failure is `.error msg`. -/

structure PageData where
  titleText : String
  bodyText : String
  nextHrefs : List String
deriving DecidableEq, Repr

/-- The test `resolvedNextUrl.includes("_") && resolvedNextUrl.match(/\d+_\d+\.html$/)`
(source lines 346–347): the URL ends in `<digits>_<digits>.html`. -/
def matchesPagePattern (s : String) : Bool :=
  match s.data.reverse with
  | 'l' :: 'm' :: 't' :: 'h' :: '.' :: r =>
    !(r.takeWhile Char.isDigit).isEmpty &&
      (match r.drop (r.takeWhile Char.isDigit).length with
       | '_' :: c :: _ => c.isDigit
       | _ => false)
  | _ => false

def isNextPage (s : String) : Bool := jsIncludes s '_' && matchesPagePattern s

/-- The next-page candidate scan (source lines 322–356): the first candidate
whose resolved URL is non-null, differs from the current URL and matches the
site-pagination pattern wins.  A throwing `resolveUrl` escapes into the
loop's `catch` (the `.error` result). -/
def pickNextUrl (parse : String → String → Except String String)
    (baseUrl currentUrl : String) : List String → Except String (Option String)
  | [] => .ok none
  | href :: rest =>
    if href = "" then pickNextUrl parse baseUrl currentUrl rest
    else
      match resolveUrl parse (some href) baseUrl with
      | .error e => .error e
      | .ok none => pickNextUrl parse baseUrl currentUrl rest
      | .ok (some resolved) =>
        if resolved ≠ currentUrl ∧ isNextPage resolved = true then .ok (some resolved)
        else pickNextUrl parse baseUrl currentUrl rest

/-- The page loop `while (currentUrl && !visitedUrls.has(currentUrl))` (source
lines 288–363), structurally recursive on a fuel bound on the number of
iterations (the JS loop has no such bound; fuel exhaustion returns the state
reached so far, and the cycle-safety theorem shows any fuel of at least the
number of reachable URLs is never exhausted).  One iteration: mark the URL
visited, fetch+extract it (a failure `break`s, keeping accumulated state),
extract the title on the first titled page, append this page's non-empty
body text (blank-line separator), and follow the next-page link; a throwing
`pickNextUrl` is caught by the same `catch` and `break`s after the content
was already appended. -/
def chapterLoopGo (parse : String → String → Except String String)
    (baseUrl : String) (page : String → Except String PageData) :
    Nat → Option String → List String → String → String →
    String × String × List String
  | 0, _, visited, title, content => (title, content, visited)
  | _ + 1, none, visited, title, content => (title, content, visited)
  | fuel + 1, some u, visited, title, content =>
    if u ∈ visited then (title, content, visited)
    else
      match page u with
      | .error _ => (title, content, u :: visited)
      | .ok p =>
        let title' := if title = "" then cleanTitle (jsTrim p.titleText) else title
        let pc := jsTrim p.bodyText
        let content' :=
          if pc = "" then content
          else if content = "" then pc else content ++ "\n\n" ++ pc
        match pickNextUrl parse baseUrl u p.nextHrefs with
        | .error _ => (title', content', u :: visited)
        | .ok next =>
          chapterLoopGo parse baseUrl page fuel next (u :: visited) title' content'

/-- The function `downloadChapterPages` (source lines 281–366): run the loop from the
chapter's URL with empty state, then default the title and trim the content
(source line 365). -/
def downloadChapterPages (parse : String → String → Except String String)
    (baseUrl : String) (page : String → Except String PageData)
    (fuel : Nat) (url : String) : String × String :=
  let r := chapterLoopGo parse baseUrl page fuel (some url) [] "" ""
  (if r.1 = "" then "未知标题" else r.1, jsTrim r.2.1)

/-- The next URL the loop would continue to from `u` (none on fetch failure,
on a thrown `pickNextUrl` and on "no candidate matched"): the third
component of one iteration's effect, which is independent of the
title/content accumulators. -/
def nextUrlOf (parse : String → String → Except String String)
    (baseUrl : String) (page : String → Except String PageData)
    (u : String) : Option String :=
  match page u with
  | .error _ => none
  | .ok p =>
    match pickNextUrl parse baseUrl u p.nextHrefs with
    | .error _ => none
    | .ok next => next

/-- One iteration's effect on the accumulated title. -/
def stepTitle (page : String → Except String PageData) (u title : String) :
    String :=
  match page u with
  | .error _ => title
  | .ok p => if title = "" then cleanTitle (jsTrim p.titleText) else title

/-- One iteration's effect on the accumulated content. -/
def stepContent (page : String → Except String PageData) (u content : String) :
    String :=
  match page u with
  | .error _ => content
  | .ok p =>
    let pc := jsTrim p.bodyText
    if pc = "" then content
    else if content = "" then pc else content ++ "\n\n" ++ pc

/-! ## Parallel control: `downloadAllChapters` (source lines 378–444)

Each chapter's task body never rejects: every `await` inside
`downloadChapterPages` sits inside the loop's `try`, so the task always
resolves with `success: true` (the `catch`/`rejected` branches that would
produce `success: false` are unreachable for fetch errors).
`Promise.allSettled` preserves the order of the `chapters.map` array, and
results are pushed in that order, so the result list is in discovery order
regardless of completion order. -/

structure ChapterResult where
  index : Nat
  title : String
  content : String
  success : Bool
  error : Option String
deriving DecidableEq, Repr

/-- One chapter's task (source lines 389–424), at its discovery `index`.
`title: title || chapter.title` — the loop's title is already defaulted to
`"未知标题"` and is never empty, but the fallback is kept as written. -/
def downloadOneChapter (parse : String → String → Except String String)
    (baseUrl : String) (page : String → Except String PageData)
    (fuel : Nat) (ch : ChapterRef) (index : Nat) : ChapterResult :=
  let r := downloadChapterPages parse baseUrl page fuel ch.url
  { index := index
    title := if r.1 = "" then ch.title else r.1
    content := r.2
    success := true
    error := none }

def downloadAllChapters (parse : String → String → Except String String)
    (baseUrl : String) (page : String → Except String PageData)
    (fuel : Nat) (chapters : List ChapterRef) : List ChapterResult :=
  chapters.enum.map (fun p => downloadOneChapter parse baseUrl page fuel p.2 p.1)

/-! ## Order-preserving merge: `mergeToFile` (source lines 456–512)

`[...chapters].sort((a, b) => a.index - b.index)` is a stable ascending sort
by `index`; it is modelled by insertion sort under `idxLe`, which is also
stable.  The function returns the text written to the output file. -/

def idxLe (a b : ChapterResult) : Prop := a.index ≤ b.index

instance : DecidableRel idxLe := fun a b =>
  inferInstanceAs (Decidable (a.index ≤ b.index))

instance : IsTotal ChapterResult idxLe := ⟨fun a b => Nat.le_total a.index b.index⟩

instance : IsTrans ChapterResult idxLe := ⟨fun _ _ _ h h' => Nat.le_trans h h'⟩

def idxLt (a b : ChapterResult) : Prop := a.index < b.index

instance : IsAntisymm ChapterResult idxLt :=
  ⟨fun _ _ h h' => (Nat.lt_irrefl _ (Nat.lt_trans h h')).elim⟩

def sortByIndex (chapters : List ChapterResult) : List ChapterResult :=
  List.insertionSort idxLe chapters

/-- The banner rule line `"=".repeat(80)`. -/
def ruleLine : String := String.mk (List.replicate 80 '=')

/-- The placeholder reason `chapter.error || "未知错误"`: a missing or empty error message falls
back to the sentinel. -/
def errorText : Option String → String
  | some e => if e = "" then "未知错误" else e
  | none => "未知错误"

/-- One chapter's block (source lines 476–496): content when the chapter
succeeded with non-empty content, a failure placeholder otherwise. -/
def chapterBlock (c : ChapterResult) : String :=
  if c.success = true ∧ c.content ≠ "" then
    c.title ++ "\n" ++ c.content ++ "\n\n" ++ ruleLine ++ "\n\n"
  else
    c.title ++ "\n[下载失败: " ++ errorText c.error ++ "]\n\n" ++ ruleLine ++ "\n\n"

/-- The merged document's full text: header banner, then the chapter blocks
in ascending `index` order. -/
def mergeToFile (chapters : List ChapterResult) (bookTitle : String) : String :=
  ruleLine ++ "\n" ++ bookTitle ++ "\n" ++ ruleLine ++ "\n\n\n" ++
    String.join ((sortByIndex chapters).map chapterBlock)

/-! ### Specification-side reference for the multi-page join

Written from the spec's words (§4.4/§8): the non-empty page texts, joined in
visit order by a blank-line separator. -/

def sepJoin (sep : String) : List String → String
  | [] => ""
  | [s] => s
  | s :: rest => s ++ sep ++ sepJoin sep rest

/-- The content accumulator's one-page effect, as a fold step. -/
def joinStep (content pc : String) : String :=
  if pc = "" then content
  else if content = "" then pc else content ++ "\n\n" ++ pc

/-- Chain predicate for a linear multi-page chapter: each page's
fetch+extraction succeeds with the given data, each page's next link leads
to the next entry, and the last page has no (followed) next link. -/
def chainOk (parse : String → String → Except String String)
    (baseUrl : String) (page : String → Except String PageData) :
    List (String × PageData) → Bool
  | [] => true
  | (u, p) :: rest =>
    (match page u with
     | .ok q => decide (q = p)
     | .error _ => false) &&
    (match rest with
     | [] => decide (nextUrlOf parse baseUrl page u = none)
     | (v, _) :: _ => decide (nextUrlOf parse baseUrl page u = some v)) &&
    chainOk parse baseUrl page rest

/-! ## Helper lemmas -/

theorem fetchAux_success (oracle : Nat → Except String String)
    (delays : List Nat) (m : Nat) (v : String) :
    ∀ (s : Nat) (e : Nat → String) (r a : Nat) (le : Option String),
      s < r → (∀ i, i < s → oracle (a + i) = .error (e i)) →
      oracle (a + s) = .ok v →
      fetchAux oracle delays m r a le =
        (.ok v, (List.range s).map (fun i => delayFor delays (a + i))) := by
  intro s
  induction s with
  | zero =>
    intro e r a le hs hfail hok
    obtain ⟨r', rfl⟩ : ∃ r', r = r' + 1 := ⟨r - 1, by omega⟩
    simp only [Nat.add_zero] at hok
    simp [fetchAux, hok]
  | succ s' ih =>
    intro e r a le hs hfail hok
    obtain ⟨r', rfl⟩ : ∃ r', r = r' + 1 := ⟨r - 1, by omega⟩
    have h0 : oracle a = .error (e 0) := by
      have := hfail 0 (by omega)
      simpa using this
    have hr' : r' ≠ 0 := by omega
    have hrec := ih (fun i => e (i + 1)) r' (a + 1) (some (e 0))
      (by omega)
      (by
        intro i hi
        have := hfail (i + 1) (by omega)
        rwa [show a + (i + 1) = a + 1 + i by omega] at this)
      (by rwa [show a + (s' + 1) = a + 1 + s' by omega] at hok)
    simp only [fetchAux, h0, hr', if_false, hrec, Prod.mk.injEq, true_and]
    rw [List.range_succ_eq_map, List.map_cons, List.map_map]
    simp only [Nat.add_zero, List.cons.injEq, true_and]
    congr 1
    funext i
    simp only [Function.comp]
    congr 1
    omega

theorem fetchAux_allFail (oracle : Nat → Except String String)
    (delays : List Nat) (m : Nat) :
    ∀ (r : Nat) (e : Nat → String) (a : Nat) (le : Option String),
      1 ≤ r → (∀ i, i < r → oracle (a + i) = .error (e i)) →
      fetchAux oracle delays m r a le =
        (.error (retryErrMsg m (some (e (r - 1)))),
         (List.range (r - 1)).map (fun i => delayFor delays (a + i))) := by
  intro r
  induction r with
  | zero => intro e a le h; omega
  | succ r' ih =>
    intro e a le _ hfail
    have h0 : oracle a = .error (e 0) := by
      have := hfail 0 (by omega)
      simpa using this
    by_cases hr' : r' = 0
    · subst hr'
      simp [fetchAux, h0]
    · have hrec := ih (fun i => e (i + 1)) (a + 1) (some (e 0))
        (by omega)
        (by
          intro i hi
          have := hfail (i + 1) (by omega)
          rwa [show a + (i + 1) = a + 1 + i by omega] at this)
      simp only [fetchAux, h0, hr', if_false, hrec, Nat.add_sub_cancel,
        Prod.mk.injEq]
      obtain ⟨k, rfl⟩ : ∃ k, r' = k + 1 := ⟨r' - 1, by omega⟩
      simp only [Nat.add_sub_cancel]
      constructor
      · trivial
      · rw [List.range_succ_eq_map, List.map_cons, List.map_map]
        simp only [Nat.add_zero, List.cons.injEq, true_and]
        congr 1
        funext i
        simp only [Function.comp]
        congr 1
        omega

theorem collectItems_spec (parse : String → String → Except String String)
    (baseUrl : String) :
    ∀ (items : List (String × String)) (seen : List String)
      (chs : List ChapterRef),
      (∀ k, k ∈ seen ↔ k ∈ chs.map chapterKey) →
      (collectItems parse baseUrl items (seen, chs)).2 =
        (pageItems parse baseUrl items).foldl dedupStep chs ∧
      (∀ k, k ∈ (collectItems parse baseUrl items (seen, chs)).1 ↔
        k ∈ ((collectItems parse baseUrl items (seen, chs)).2).map chapterKey) := by
  intro items
  induction items with
  | nil => intro seen chs hinv; exact ⟨rfl, hinv⟩
  | cons it rest ih =>
    obtain ⟨href, title⟩ := it
    intro seen chs hinv
    by_cases hskip : href = "" ∨ title = ""
    · simp only [collectItems, pageItems, hskip, if_true]
      exact ih seen chs hinv
    · simp only [collectItems, pageItems, hskip, if_false]
      cases hres : resolveUrl parse (some href) baseUrl with
      | error e => exact ⟨rfl, hinv⟩
      | ok o =>
        cases o with
        | none => exact ⟨rfl, hinv⟩
        | some fullUrl =>
          by_cases hseen : stripQuery fullUrl ∈ seen
          · have hkey : chapterKey ⟨fullUrl, title⟩ ∈ chs.map chapterKey :=
              (hinv _).mp hseen
            simp only [hseen, if_true, List.foldl_cons]
            have hstep : dedupStep chs ⟨fullUrl, title⟩ = chs := by
              simp [dedupStep, hkey]
            rw [hstep]
            exact ih seen chs hinv
          · have hkey : chapterKey ⟨fullUrl, title⟩ ∉ chs.map chapterKey :=
              fun hmem => hseen ((hinv _).mpr hmem)
            simp only [hseen, if_false, List.foldl_cons]
            have hstep : dedupStep chs ⟨fullUrl, title⟩ = chs ++ [⟨fullUrl, title⟩] := by
              simp [dedupStep, hkey]
            rw [hstep]
            refine ih (stripQuery fullUrl :: seen) (chs ++ [⟨fullUrl, title⟩]) ?_
            intro k
            have hck : chapterKey (⟨fullUrl, title⟩ : ChapterRef) = stripQuery fullUrl := rfl
            simp only [List.mem_cons, List.map_append, List.mem_append,
              List.map_cons, List.map_nil, List.not_mem_nil, or_false, hinv k, hck]
            tauto

theorem collectPages_spec (fetch : String → Except String String)
    (extractLinks : String → List (String × String))
    (parse : String → String → Except String String) (baseUrl : String) :
    ∀ (urls : List String) (seen : List String) (chs : List ChapterRef),
      (∀ k, k ∈ seen ↔ k ∈ chs.map chapterKey) →
      (collectPages fetch extractLinks parse baseUrl urls (seen, chs)).2 =
        (effItems fetch extractLinks parse baseUrl urls).foldl dedupStep chs := by
  intro urls
  induction urls with
  | nil => intro seen chs _; rfl
  | cons u rest ih =>
    intro seen chs hinv
    cases hf : fetch u with
    | error e =>
      simp only [collectPages, effItems, hf, List.foldr_cons, List.nil_append]
      exact ih seen chs hinv
    | ok html =>
      simp only [collectPages, effItems, hf, List.foldr_cons]
      obtain ⟨heq, hinv'⟩ :=
        collectItems_spec parse baseUrl (extractLinks html) seen chs hinv
      obtain ⟨seen', chs'⟩ :
          ∃ st, collectItems parse baseUrl (extractLinks html) (seen, chs) = st :=
        ⟨_, rfl⟩
      rw [List.foldl_append, ← heq]
      have := ih (collectItems parse baseUrl (extractLinks html) (seen, chs)).1
        (collectItems parse baseUrl (extractLinks html) (seen, chs)).2 hinv'
      simpa [effItems] using this

theorem foldl_dedupStep_keyNodup :
    ∀ (l : List ChapterRef) (acc : List ChapterRef),
      (acc.map chapterKey).Nodup → ((l.foldl dedupStep acc).map chapterKey).Nodup := by
  intro l
  induction l with
  | nil => intro acc h; exact h
  | cons c rest ih =>
    intro acc h
    rw [List.foldl_cons]
    refine ih _ ?_
    unfold dedupStep
    by_cases hmem : chapterKey c ∈ acc.map chapterKey
    · simp [hmem, h]
    · simp only [hmem, if_false, List.map_append, List.map_cons, List.map_nil]
      rw [List.nodup_append]
      exact ⟨h, List.nodup_singleton _, by simpa using hmem⟩

theorem chapterLoopGo_none (parse : String → String → Except String String)
    (baseUrl : String) (page : String → Except String PageData)
    (fuel : Nat) (visited : List String) (t c : String) :
    chapterLoopGo parse baseUrl page fuel none visited t c = (t, c, visited) := by
  cases fuel <;> rfl

theorem chapterLoopGo_stop (parse : String → String → Except String String)
    (baseUrl : String) (page : String → Except String PageData)
    (fuel : Nat) (cur : Option String) (visited : List String) (t c : String)
    (h : cur = none ∨ ∃ u, cur = some u ∧ u ∈ visited) :
    chapterLoopGo parse baseUrl page fuel cur visited t c = (t, c, visited) := by
  rcases h with rfl | ⟨u, rfl, hu⟩
  · exact chapterLoopGo_none parse baseUrl page fuel visited t c
  · cases fuel with
    | zero => rfl
    | succ f => simp [chapterLoopGo, hu]

theorem chapterLoopGo_step (parse : String → String → Except String String)
    (baseUrl : String) (page : String → Except String PageData)
    (fuel : Nat) (u : String) (visited : List String) (t c : String)
    (h : u ∉ visited) :
    chapterLoopGo parse baseUrl page (fuel + 1) (some u) visited t c =
      match nextUrlOf parse baseUrl page u with
      | none => (stepTitle page u t, stepContent page u c, u :: visited)
      | some v =>
        chapterLoopGo parse baseUrl page fuel (some v) (u :: visited)
          (stepTitle page u t) (stepContent page u c) := by
  cases hp : page u with
  | error e =>
    simp [chapterLoopGo, h, hp, nextUrlOf, stepTitle, stepContent]
  | ok p =>
    cases hn : pickNextUrl parse baseUrl u p.nextHrefs with
    | error e =>
      simp [chapterLoopGo, h, hp, hn, nextUrlOf, stepTitle, stepContent]
    | ok next =>
      cases next with
      | none =>
        simp [chapterLoopGo, h, hp, hn, nextUrlOf, stepTitle, stepContent,
          chapterLoopGo_none]
      | some v =>
        simp [chapterLoopGo, h, hp, hn, nextUrlOf, stepTitle, stepContent]

theorem chapterLoopGo_bounded (parse : String → String → Except String String)
    (baseUrl : String) (page : String → Except String PageData)
    (R : List String)
    (hclosed : ∀ u, u ∈ R → ∀ v,
      nextUrlOf parse baseUrl page u = some v → v ∈ R) :
    ∀ (n : Nat) (cur : Option String) (visited : List String) (t c : String),
      (∀ u, cur = some u → u ∈ R) → visited.Nodup → visited ⊆ R →
      ∀ fuel, R.length - visited.length ≤ n → R.length - visited.length ≤ fuel →
        chapterLoopGo parse baseUrl page fuel cur visited t c =
          chapterLoopGo parse baseUrl page n cur visited t c ∧
        (chapterLoopGo parse baseUrl page fuel cur visited t c).2.2.Nodup ∧
        (chapterLoopGo parse baseUrl page fuel cur visited t c).2.2 ⊆ R := by
  intro n
  induction n with
  | zero =>
    intro cur visited t c hcur hnd hsub fuel hn hfuel
    cases cur with
    | none =>
      rw [chapterLoopGo_none, chapterLoopGo_none]
      exact ⟨rfl, hnd, hsub⟩
    | some u =>
      by_cases hu : u ∈ visited
      · rw [chapterLoopGo_stop parse baseUrl page fuel (some u) visited t c
          (Or.inr ⟨u, rfl, hu⟩),
          chapterLoopGo_stop parse baseUrl page 0 (some u) visited t c
          (Or.inr ⟨u, rfl, hu⟩)]
        exact ⟨rfl, hnd, hsub⟩
      · exfalso
        have hnd' : (u :: visited).Nodup := List.nodup_cons.mpr ⟨hu, hnd⟩
        have hsub' : (u :: visited) ⊆ R :=
          List.cons_subset.mpr ⟨hcur u rfl, hsub⟩
        have := (List.subperm_of_subset hnd' hsub').length_le
        simp at this
        omega
  | succ m ih =>
    intro cur visited t c hcur hnd hsub fuel hn hfuel
    cases cur with
    | none =>
      rw [chapterLoopGo_none, chapterLoopGo_none]
      exact ⟨rfl, hnd, hsub⟩
    | some u =>
      by_cases hu : u ∈ visited
      · rw [chapterLoopGo_stop parse baseUrl page fuel (some u) visited t c
          (Or.inr ⟨u, rfl, hu⟩),
          chapterLoopGo_stop parse baseUrl page (m + 1) (some u) visited t c
          (Or.inr ⟨u, rfl, hu⟩)]
        exact ⟨rfl, hnd, hsub⟩
      · have huR : u ∈ R := hcur u rfl
        have hnd' : (u :: visited).Nodup := List.nodup_cons.mpr ⟨hu, hnd⟩
        have hsub' : (u :: visited) ⊆ R :=
          List.cons_subset.mpr ⟨huR, hsub⟩
        have hlen : visited.length + 1 ≤ R.length := by
          have := (List.subperm_of_subset hnd' hsub').length_le
          simpa using this
        obtain ⟨f, rfl⟩ : ∃ f, fuel = f + 1 := ⟨fuel - 1, by omega⟩
        rw [chapterLoopGo_step parse baseUrl page f u visited t c hu,
          chapterLoopGo_step parse baseUrl page m u visited t c hu]
        cases hnext : nextUrlOf parse baseUrl page u with
        | none =>
          exact ⟨rfl, hnd', hsub'⟩
        | some v =>
          have hvR : v ∈ R := hclosed u huR v hnext
          have hrec := ih (some v) (u :: visited) (stepTitle page u t)
            (stepContent page u c)
            (fun w hw => by cases hw; exact hvR) hnd' hsub' f
            (by simp only [List.length_cons]; omega)
            (by simp only [List.length_cons]; omega)
          exact hrec

theorem string_append_ne_empty {a : String} (b : String) (h : a ≠ "") :
    a ++ b ≠ "" := by
  intro hab
  apply h
  have hlen := congrArg String.length hab
  rw [String.length_append] at hlen
  have ha : a.length = 0 := by
    have : (("" : String)).length = 0 := rfl
    omega
  cases a with
  | mk data =>
    cases data with
    | nil => rfl
    | cons c cs => simp [String.length] at ha

theorem foldl_joinStep_sepJoin :
    ∀ (l : List String) (a : String),
      l.foldl joinStep a =
        if a = "" then sepJoin "\n\n" (l.filter (fun s => s ≠ ""))
        else if l.filter (fun s => s ≠ "") = [] then a
        else a ++ "\n\n" ++ sepJoin "\n\n" (l.filter (fun s => s ≠ "")) := by
  intro l
  induction l with
  | nil =>
    intro a
    by_cases ha : a = "" <;> simp [sepJoin, ha]
  | cons s rest ih =>
    intro a
    rw [List.foldl_cons]
    by_cases hs : s = ""
    · subst hs
      have hstep : joinStep a "" = a := by simp [joinStep]
      rw [hstep, ih a]
      simp
    · rw [List.filter_cons_of_pos (by simpa using hs)]
      by_cases ha : a = ""
      · subst ha
        have hstep : joinStep "" s = s := by simp [joinStep, hs]
        rw [hstep, ih s]
        simp only [if_pos rfl, hs, if_false]
        cases hrest : rest.filter (fun x => x ≠ "") with
        | nil => simp [hs, sepJoin]
        | cons y ys => simp [hs, sepJoin]
      · have hstep : joinStep a s = a ++ "\n\n" ++ s := by
          simp [joinStep, hs, ha]
        rw [hstep, ih (a ++ "\n\n" ++ s)]
        have hne : a ++ "\n\n" ++ s ≠ "" :=
          string_append_ne_empty s (string_append_ne_empty "\n\n" ha)
        simp only [hne, if_false, ha]
        cases hrest : rest.filter (fun x => x ≠ "") with
        | nil => simp [sepJoin]
        | cons y ys =>
          simp only [sepJoin]
          cases ys <;> simp [sepJoin, String.append_assoc]

theorem chainOk_head (parse : String → String → Except String String)
    (baseUrl : String) (page : String → Except String PageData)
    (u : String) (p : PageData) (rest : List (String × PageData))
    (h : chainOk parse baseUrl page ((u, p) :: rest) = true) :
    page u = .ok p ∧
    (match rest with
     | [] => nextUrlOf parse baseUrl page u = none
     | (v, _) :: _ => nextUrlOf parse baseUrl page u = some v) ∧
    chainOk parse baseUrl page rest = true := by
  simp only [chainOk, Bool.and_eq_true] at h
  obtain ⟨⟨h1, h2⟩, h3⟩ := h
  refine ⟨?_, ?_, h3⟩
  · cases hp : page u with
    | error e => rw [hp] at h1; exact absurd h1 (by simp)
    | ok q =>
      rw [hp] at h1
      have : q = p := by simpa using h1
      rw [this]
  · cases rest with
    | nil => simpa using h2
    | cons x xs =>
      obtain ⟨v, q⟩ := x
      simpa using h2

theorem stepContent_ok (page : String → Except String PageData)
    (u : String) (p : PageData) (c : String) (hp : page u = .ok p) :
    stepContent page u c = joinStep c (jsTrim p.bodyText) := by
  simp [stepContent, joinStep, hp]

theorem chapterLoopGo_chain (parse : String → String → Except String String)
    (baseUrl : String) (page : String → Except String PageData) :
    ∀ (chain : List (String × PageData)) (u : String) (p : PageData)
      (visited : List String) (t c : String) (fuel : Nat),
      chainOk parse baseUrl page ((u, p) :: chain) = true →
      (((u, p) :: chain).map Prod.fst).Nodup →
      (∀ x, x ∈ ((u, p) :: chain).map Prod.fst → x ∉ visited) →
      chain.length < fuel →
      (chapterLoopGo parse baseUrl page fuel (some u) visited t c).2.1 =
        (((u, p) :: chain).map (fun x => jsTrim x.2.bodyText)).foldl joinStep c := by
  intro chain
  induction chain with
  | nil =>
    intro u p visited t c fuel hchain hnd hdisj hfuel
    obtain ⟨hp, hnext, -⟩ := chainOk_head parse baseUrl page u p [] hchain
    obtain ⟨f, rfl⟩ : ∃ f, fuel = f + 1 := ⟨fuel - 1, by omega⟩
    have hu : u ∉ visited := hdisj u (by simp)
    rw [chapterLoopGo_step parse baseUrl page f u visited t c hu]
    simp only at hnext
    rw [hnext]
    simp only [List.map_cons, List.map_nil, List.foldl_cons, List.foldl_nil]
    exact congrArg (fun s => s) (by rw [stepContent_ok page u p c hp])
  | cons hd tl ih =>
    intro u p visited t c fuel hchain hnd hdisj hfuel
    obtain ⟨hp, hnext, hrest⟩ := chainOk_head parse baseUrl page u p (hd :: tl) hchain
    obtain ⟨v, q⟩ := hd
    simp only at hnext
    obtain ⟨f, rfl⟩ : ∃ f, fuel = f + 1 := ⟨fuel - 1, by omega⟩
    have hu : u ∉ visited := hdisj u (by simp)
    rw [chapterLoopGo_step parse baseUrl page f u visited t c hu, hnext]
    have hnd' : (((v, q) :: tl).map Prod.fst).Nodup := by
      simp only [List.map_cons, List.nodup_cons] at hnd ⊢
      exact hnd.2
    have hdisj' : ∀ x, x ∈ ((v, q) :: tl).map Prod.fst → x ∉ u :: visited := by
      intro x hx
      simp only [List.mem_cons, not_or]
      constructor
      · intro hxu
        subst hxu
        simp only [List.map_cons, List.nodup_cons] at hnd
        exact hnd.1 (by simpa using hx)
      · exact hdisj x (by simp only [List.map_cons, List.mem_cons]; right; simpa using hx)
    have := ih v q (u :: visited) (stepTitle page u t) (stepContent page u c) f
      hrest hnd' hdisj' (by simpa using Nat.lt_of_succ_lt_succ hfuel)
    rw [this, stepContent_ok page u p c hp]
    simp [List.foldl_cons]

/-! ## Claims -/

/-- C10: at the public boundary of `resolveUrl`, any `url` starting with
`http://` or `https://` is returned unchanged for **every** base — the base
is never parsed on that path, so even an invalid base cannot raise — and a
`null` or empty `url` yields `null` rather than a thrown error. -/
theorem claim_C10_resolveUrl_boundary
    (parse : String → String → Except String String) (u baseUrl : String)
    (h : jsStartsWith u "http://" = true ∨ jsStartsWith u "https://" = true) :
    resolveUrl parse (some u) baseUrl = .ok (some u) ∧
    resolveUrl parse none baseUrl = .ok none ∧
    resolveUrl parse (some "") baseUrl = .ok none := by
  refine ⟨?_, rfl, by simp [resolveUrl]⟩
  have hne : u ≠ "" := by
    intro he
    subst he
    rcases h with h | h <;> simp [jsStartsWith, charsStartWith] at h
  rcases h with h | h <;> simp [resolveUrl, hne, h]

theorem claim_C10_resolveUrl_boundary_witness :
    (jsStartsWith "http://example.com/b/1.html" "http://" = true ∨
      jsStartsWith "http://example.com/b/1.html" "https://" = true) ∧
    (resolveUrl (fun _ _ => .error "TypeError: Invalid URL")
        (some "http://example.com/b/1.html") "%%not-a-url%%" =
      .ok (some "http://example.com/b/1.html") ∧
     resolveUrl (fun _ _ => .error "TypeError: Invalid URL")
        none "%%not-a-url%%" = .ok none ∧
     resolveUrl (fun _ _ => .error "TypeError: Invalid URL")
        (some "") "%%not-a-url%%" = .ok none) :=
  ⟨Or.inl rfl,
   claim_C10_resolveUrl_boundary (fun _ _ => .error "TypeError: Invalid URL")
     "http://example.com/b/1.html" "%%not-a-url%%" (Or.inl rfl)⟩

/-- C3 counterexample: the claim's general clause says the wait before retry
`k` is `delays[k - 1]` whenever `k - 1` is within the list.  With
`delays = [0, 5]` and a failure on attempt 1, the claim mandates a 0 ms
wait (`delays[0] = 0`), but `delays[attempt] || delays[delays.length - 1]`
treats the in-range entry `0` as falsy and the code waits 5 ms. -/
theorem claim_C3_counterexample :
    fetchWithRetry (fun i => if i = 0 then .error "E0" else .ok "okv") 2 [0, 5]
      = (.ok "okv", [5]) ∧
    [0, 5].getD 0 99 = 0 ∧
    ([5] : List Nat) ≠ [[0, 5].getD 0 99] :=
  ⟨rfl, rfl, by decide⟩

/-- C3 (amended): with the underlying GET's outcomes given per attempt, a
run that first succeeds on attempt `s` returns that value after exactly the
waits `delayFor delays 0, …, delayFor delays (s-1)` in order (for the
configuration `maxAttempts = 3`, `delays = [1000, 2000, 4000]` and a success
on attempt 2 — the claim's scenario — that is 1000 ms then 2000 ms); a run
whose every attempt fails ends with the error message built from the *last*
underlying error.  The wait before retry `k` is `delays[k-1]` when that
entry is present and non-zero, and the last entry (0 when the list is
empty) when the index is out of range **or the entry is `0`** (JS `||`
falsiness) — the latter disjunct is what the original claim missed. -/
theorem claim_C3_retry_schedule
    (oracle : Nat → Except String String) (delays : List Nat)
    (maxAttempts s : Nat) (e : Nat → String) (v : String) :
    (s < maxAttempts → (∀ i, i < s → oracle i = .error (e i)) →
      oracle s = .ok v →
      fetchWithRetry oracle maxAttempts delays =
        (.ok v, (List.range s).map (delayFor delays))) ∧
    (1 ≤ maxAttempts → (∀ i, i < maxAttempts → oracle i = .error (e i)) →
      fetchWithRetry oracle maxAttempts delays =
        (.error (retryErrMsg maxAttempts (some (e (maxAttempts - 1)))),
         (List.range (maxAttempts - 1)).map (delayFor delays))) ∧
    (∀ k d, delays.get? k = some d → d ≠ 0 → delayFor delays k = d) ∧
    (∀ k, delays.length ≤ k → delayFor delays k = delays.getLast?.getD 0) := by
  refine ⟨?_, ?_, ?_, ?_⟩
  · intro hs hfail hok
    have := fetchAux_success oracle delays maxAttempts v s e maxAttempts 0 none
      hs (by simpa using hfail) (by simpa using hok)
    simpa [fetchWithRetry] using this
  · intro hm hfail
    have := fetchAux_allFail oracle delays maxAttempts maxAttempts e 0 none
      hm (by simpa using hfail)
    simpa [fetchWithRetry] using this
  · intro k d hk hd
    unfold delayFor
    rw [hk]
    simp [hd]
  · intro k hk
    have hnone : delays.get? k = none := List.get?_eq_none.mpr hk
    unfold delayFor
    rw [hnone]

theorem claim_C3_retry_schedule_witness :
    (2 < 3) ∧
    fetchWithRetry (fun i => if i = 2 then .ok "page" else .error "boom") 3
        [1000, 2000, 4000] =
      (.ok "page", (List.range 2).map (delayFor [1000, 2000, 4000])) ∧
    (List.range 2).map (delayFor [1000, 2000, 4000]) = [1000, 2000] :=
  ⟨by decide,
   (claim_C3_retry_schedule (fun i => if i = 2 then .ok "page" else .error "boom")
       [1000, 2000, 4000] 3 2 (fun _ => "boom") "page").1
     (by decide)
     (fun i hi => by
       match i with
       | 0 => rfl
       | 1 => rfl
       | n + 2 => exact absurd hi (by omega))
     rfl,
   by decide⟩

/-- C4: once the main index page has been fetched and the pagination URL set
assembled, the collected chapter list is exactly the first-seen-order
deduplication (by canonical key, i.e. URL with query string stripped) of the
stream of valid chapter links the scanned pages contribute: each canonical
URL appears exactly once (the key list is `Nodup`), with the first-seen
title, in first-seen order (`specDedup` keeps the first entry per key, in
stream order).  The claim's example instance is checked in the witness. -/
theorem claim_C4_dedup_first_seen (fetch : String → Except String String)
    (extractPagination : String → List String)
    (extractLinks : String → List (String × String))
    (parse : String → String → Except String String)
    (baseUrl mainUrl mainHtml : String) (purls : List String)
    (hmain : fetch mainUrl = .ok mainHtml)
    (hpag : buildPaginationUrls parse baseUrl mainUrl
      (extractPagination mainHtml) = .ok purls) :
    getChapterList fetch extractPagination extractLinks parse baseUrl mainUrl =
      .ok (specDedup (effItems fetch extractLinks parse baseUrl purls)) ∧
    ((specDedup (effItems fetch extractLinks parse baseUrl purls)).map
      chapterKey).Nodup := by
  constructor
  · unfold getChapterList
    rw [hmain]
    dsimp only
    rw [hpag]
    dsimp only
    have := collectPages_spec fetch extractLinks parse baseUrl purls [] []
      (by simp)
    rw [this]
    rfl
  · exact foldl_dedupStep_keyNodup _ [] (by simp)

theorem claim_C4_dedup_first_seen_witness :
    ((fun u => if u = "http://s/idx1.html" then Except.ok "A"
       else if u = "http://s/idx2.html" then Except.ok "B"
       else Except.error "404") "http://s/idx1.html" = Except.ok "A") ∧
    (buildPaginationUrls (fun _ _ => .error "no-parse") "http://s"
      "http://s/idx1.html"
      ((fun h => if h = "A" then ["http://s/idx2.html"] else []) "A") =
      .ok ["http://s/idx1.html", "http://s/idx2.html"]) ∧
    (getChapterList
        (fun u => if u = "http://s/idx1.html" then Except.ok "A"
          else if u = "http://s/idx2.html" then Except.ok "B"
          else Except.error "404")
        (fun h => if h = "A" then ["http://s/idx2.html"] else [])
        (fun h =>
          if h = "A" then [("http://s/1.html", "Ch1"), ("http://s/2.html", "Ch2")]
          else if h = "B" then [("http://s/2.html", "Ch2b"), ("http://s/3.html", "Ch3")]
          else [])
        (fun _ _ => .error "no-parse") "http://s" "http://s/idx1.html" =
      .ok (specDedup (effItems
        (fun u => if u = "http://s/idx1.html" then Except.ok "A"
          else if u = "http://s/idx2.html" then Except.ok "B"
          else Except.error "404")
        (fun h =>
          if h = "A" then [("http://s/1.html", "Ch1"), ("http://s/2.html", "Ch2")]
          else if h = "B" then [("http://s/2.html", "Ch2b"), ("http://s/3.html", "Ch3")]
          else [])
        (fun _ _ => .error "no-parse") "http://s"
        ["http://s/idx1.html", "http://s/idx2.html"]))) ∧
    specDedup (effItems
        (fun u => if u = "http://s/idx1.html" then Except.ok "A"
          else if u = "http://s/idx2.html" then Except.ok "B"
          else Except.error "404")
        (fun h =>
          if h = "A" then [("http://s/1.html", "Ch1"), ("http://s/2.html", "Ch2")]
          else if h = "B" then [("http://s/2.html", "Ch2b"), ("http://s/3.html", "Ch3")]
          else [])
        (fun _ _ => .error "no-parse") "http://s"
        ["http://s/idx1.html", "http://s/idx2.html"]) =
      [⟨"http://s/1.html", "Ch1"⟩, ⟨"http://s/2.html", "Ch2"⟩,
       ⟨"http://s/3.html", "Ch3"⟩] :=
  ⟨rfl, rfl,
   (claim_C4_dedup_first_seen
      (fun u => if u = "http://s/idx1.html" then Except.ok "A"
        else if u = "http://s/idx2.html" then Except.ok "B"
        else Except.error "404")
      (fun h => if h = "A" then ["http://s/idx2.html"] else [])
      (fun h =>
        if h = "A" then [("http://s/1.html", "Ch1"), ("http://s/2.html", "Ch2")]
        else if h = "B" then [("http://s/2.html", "Ch2b"), ("http://s/3.html", "Ch3")]
        else [])
      (fun _ _ => .error "no-parse") "http://s" "http://s/idx1.html" "A"
      ["http://s/idx1.html", "http://s/idx2.html"] rfl rfl).1,
   by decide⟩

/-- C5 counterexample: the claim includes the main index URL among the pages
whose fetch failure is non-fatal, but the collector's *initial* fetch of the
main index page (source line 198) is not inside any `try`: when every fetch
of the main URL fails after retries, `getChapterList` propagates the error
instead of returning a partial (empty) chapter list. -/
theorem claim_C5_counterexample :
    getChapterList (fun _ => .error "ETIMEDOUT") (fun _ => [])
      (fun _ => []) (fun _ _ => .error "no-parse") "http://s"
      "http://s/idx1.html" = .error "ETIMEDOUT" := rfl

/-- C5 (amended): once the initial fetch of the main index URL has succeeded
(and the pagination URL set assembled), fetch failures inside the collection
loop are non-fatal — `getChapterList` always returns `.ok` with the partial
list the loop accumulates, and a page whose fetch fails is skipped exactly,
the loop continuing with the remaining pages unchanged.  The initial
main-URL fetch itself, by contrast, propagates its failure (see the
counterexample). -/
theorem claim_C5_index_failure_skipped (fetch : String → Except String String)
    (extractPagination : String → List String)
    (extractLinks : String → List (String × String))
    (parse : String → String → Except String String)
    (baseUrl mainUrl mainHtml : String) (purls : List String)
    (hmain : fetch mainUrl = .ok mainHtml)
    (hpag : buildPaginationUrls parse baseUrl mainUrl
      (extractPagination mainHtml) = .ok purls) :
    getChapterList fetch extractPagination extractLinks parse baseUrl mainUrl =
      .ok (collectPages fetch extractLinks parse baseUrl purls ([], [])).2 ∧
    ∀ (u : String) (e : String) (rest : List String)
      (st : List String × List ChapterRef),
      fetch u = .error e →
      collectPages fetch extractLinks parse baseUrl (u :: rest) st =
        collectPages fetch extractLinks parse baseUrl rest st := by
  constructor
  · unfold getChapterList
    rw [hmain]
    dsimp only
    rw [hpag]
  · intro u e rest st hf
    obtain ⟨seen, chs⟩ := st
    simp [collectPages, hf]

theorem claim_C5_index_failure_skipped_witness :
    ((fun u => if u = "http://s/idx1.html" then Except.ok "A"
       else Except.error "ECONNRESET") "http://s/idx1.html" = Except.ok "A") ∧
    (getChapterList
        (fun u => if u = "http://s/idx1.html" then Except.ok "A"
          else Except.error "ECONNRESET")
        (fun h => if h = "A" then ["http://s/idx2.html"] else [])
        (fun h => if h = "A" then [("http://s/1.html", "Ch1")] else [])
        (fun _ _ => .error "no-parse") "http://s" "http://s/idx1.html" =
      .ok (collectPages
        (fun u => if u = "http://s/idx1.html" then Except.ok "A"
          else Except.error "ECONNRESET")
        (fun h => if h = "A" then [("http://s/1.html", "Ch1")] else [])
        (fun _ _ => .error "no-parse") "http://s"
        ["http://s/idx1.html", "http://s/idx2.html"] ([], [])).2) ∧
    (collectPages
        (fun u => if u = "http://s/idx1.html" then Except.ok "A"
          else Except.error "ECONNRESET")
        (fun h => if h = "A" then [("http://s/1.html", "Ch1")] else [])
        (fun _ _ => .error "no-parse") "http://s"
        ["http://s/idx1.html", "http://s/idx2.html"] ([], [])).2 =
      [⟨"http://s/1.html", "Ch1"⟩] :=
  ⟨rfl,
   (claim_C5_index_failure_skipped
      (fun u => if u = "http://s/idx1.html" then Except.ok "A"
        else Except.error "ECONNRESET")
      (fun h => if h = "A" then ["http://s/idx2.html"] else [])
      (fun h => if h = "A" then [("http://s/1.html", "Ch1")] else [])
      (fun _ _ => .error "no-parse") "http://s" "http://s/idx1.html" "A"
      ["http://s/idx1.html", "http://s/idx2.html"] rfl rfl).1,
   by decide⟩

/-- C6: cycle safety of the page-following loop.  For any set `R` of URLs
containing the chapter's start URL and closed under the loop's next-page
step (in particular, for the set of URLs reachable from the start —
including next links that point back to an already-visited URL), the loop
run with any fuel of at least `R.length` has already terminated: its result
equals the run with exactly `R.length` iterations allowed; the visited set
it produces — one entry per iteration performed — is duplicate-free (each
distinct URL is visited at most once) and has at most `R.length` entries;
and entering the loop on a URL already in the visited set ends it
immediately with the state unchanged. -/
theorem claim_C6_cycle_safety (parse : String → String → Except String String)
    (baseUrl : String) (page : String → Except String PageData)
    (R : List String) (start : String)
    (hstart : start ∈ R)
    (hclosed : ∀ u, u ∈ R → ∀ v,
      nextUrlOf parse baseUrl page u = some v → v ∈ R) :
    (∀ fuel, R.length ≤ fuel →
      chapterLoopGo parse baseUrl page fuel (some start) [] "" "" =
        chapterLoopGo parse baseUrl page R.length (some start) [] "" "" ∧
      (chapterLoopGo parse baseUrl page fuel (some start) [] "" "").2.2.Nodup ∧
      (chapterLoopGo parse baseUrl page fuel (some start) [] "" "").2.2.length ≤
        R.length) ∧
    (∀ fuel visited t c u, u ∈ visited →
      chapterLoopGo parse baseUrl page (fuel + 1) (some u) visited t c =
        (t, c, visited)) := by
  constructor
  · intro fuel hfuel
    have h := chapterLoopGo_bounded parse baseUrl page R hclosed R.length
      (some start) [] "" ""
      (fun u hu => by cases hu; exact hstart)
      List.nodup_nil
      (by intro x hx; exact absurd hx (List.not_mem_nil x))
      fuel (by simp) (by simpa using hfuel)
    refine ⟨h.1, h.2.1, ?_⟩
    exact (List.subperm_of_subset h.2.1 h.2.2).length_le
  · intro fuel visited t c u hu
    exact chapterLoopGo_stop parse baseUrl page (fuel + 1) (some u) visited t c
      (Or.inr ⟨u, rfl, hu⟩)

theorem claim_C6_cycle_safety_witness :
    (("http://s/7_1.html" : String) ∈
      (["http://s/7_1.html", "http://s/7_2.html"] : List String)) ∧
    (∀ u, u ∈ (["http://s/7_1.html", "http://s/7_2.html"] : List String) → ∀ v,
      nextUrlOf (fun _ _ => .error "no-parse") "http://s"
        (fun u => if u = "http://s/7_1.html" then
            Except.ok ⟨"", "Part1", ["http://s/7_2.html"]⟩
          else if u = "http://s/7_2.html" then
            Except.ok ⟨"", "Part2", ["http://s/7_1.html"]⟩
          else Except.error "404") u = some v →
        v ∈ (["http://s/7_1.html", "http://s/7_2.html"] : List String)) ∧
    ((∀ fuel, ([("http://s/7_1.html" : String), "http://s/7_2.html"]).length ≤ fuel →
      chapterLoopGo (fun _ _ => .error "no-parse") "http://s"
        (fun u => if u = "http://s/7_1.html" then
            Except.ok ⟨"", "Part1", ["http://s/7_2.html"]⟩
          else if u = "http://s/7_2.html" then
            Except.ok ⟨"", "Part2", ["http://s/7_1.html"]⟩
          else Except.error "404") fuel (some "http://s/7_1.html") [] "" "" =
        chapterLoopGo (fun _ _ => .error "no-parse") "http://s"
          (fun u => if u = "http://s/7_1.html" then
              Except.ok ⟨"", "Part1", ["http://s/7_2.html"]⟩
            else if u = "http://s/7_2.html" then
              Except.ok ⟨"", "Part2", ["http://s/7_1.html"]⟩
            else Except.error "404")
          (["http://s/7_1.html", "http://s/7_2.html"] : List String).length
          (some "http://s/7_1.html") [] "" "" ∧
      (chapterLoopGo (fun _ _ => .error "no-parse") "http://s"
        (fun u => if u = "http://s/7_1.html" then
            Except.ok ⟨"", "Part1", ["http://s/7_2.html"]⟩
          else if u = "http://s/7_2.html" then
            Except.ok ⟨"", "Part2", ["http://s/7_1.html"]⟩
          else Except.error "404") fuel (some "http://s/7_1.html") [] "" "").2.2.Nodup ∧
      (chapterLoopGo (fun _ _ => .error "no-parse") "http://s"
        (fun u => if u = "http://s/7_1.html" then
            Except.ok ⟨"", "Part1", ["http://s/7_2.html"]⟩
          else if u = "http://s/7_2.html" then
            Except.ok ⟨"", "Part2", ["http://s/7_1.html"]⟩
          else Except.error "404") fuel (some "http://s/7_1.html") [] "" "").2.2.length ≤
        (["http://s/7_1.html", "http://s/7_2.html"] : List String).length) ∧
    (∀ fuel visited t c u, u ∈ visited →
      chapterLoopGo (fun _ _ => .error "no-parse") "http://s"
        (fun u => if u = "http://s/7_1.html" then
            Except.ok ⟨"", "Part1", ["http://s/7_2.html"]⟩
          else if u = "http://s/7_2.html" then
            Except.ok ⟨"", "Part2", ["http://s/7_1.html"]⟩
          else Except.error "404") (fuel + 1) (some u) visited t c =
        (t, c, visited))) :=
  ⟨by decide,
   fun u hu v hv => by
     fin_cases hu
     · rw [show nextUrlOf (fun _ _ => .error "no-parse") "http://s"
           (fun u => if u = "http://s/7_1.html" then
               Except.ok ⟨"", "Part1", ["http://s/7_2.html"]⟩
             else if u = "http://s/7_2.html" then
               Except.ok ⟨"", "Part2", ["http://s/7_1.html"]⟩
             else Except.error "404") "http://s/7_1.html" =
           some "http://s/7_2.html" from rfl] at hv
       cases hv
       decide
     · rw [show nextUrlOf (fun _ _ => .error "no-parse") "http://s"
           (fun u => if u = "http://s/7_1.html" then
               Except.ok ⟨"", "Part1", ["http://s/7_2.html"]⟩
             else if u = "http://s/7_2.html" then
               Except.ok ⟨"", "Part2", ["http://s/7_1.html"]⟩
             else Except.error "404") "http://s/7_2.html" =
           some "http://s/7_1.html" from rfl] at hv
       cases hv
       decide,
   claim_C6_cycle_safety (fun _ _ => .error "no-parse") "http://s"
     (fun u => if u = "http://s/7_1.html" then
         Except.ok ⟨"", "Part1", ["http://s/7_2.html"]⟩
       else if u = "http://s/7_2.html" then
         Except.ok ⟨"", "Part2", ["http://s/7_1.html"]⟩
       else Except.error "404")
     ["http://s/7_1.html", "http://s/7_2.html"] "http://s/7_1.html"
     (by decide)
     (fun u hu v hv => by
       fin_cases hu
       · rw [show nextUrlOf (fun _ _ => .error "no-parse") "http://s"
             (fun u => if u = "http://s/7_1.html" then
                 Except.ok ⟨"", "Part1", ["http://s/7_2.html"]⟩
               else if u = "http://s/7_2.html" then
                 Except.ok ⟨"", "Part2", ["http://s/7_1.html"]⟩
               else Except.error "404") "http://s/7_1.html" =
             some "http://s/7_2.html" from rfl] at hv
         cases hv
         decide
       · rw [show nextUrlOf (fun _ _ => .error "no-parse") "http://s"
             (fun u => if u = "http://s/7_1.html" then
                 Except.ok ⟨"", "Part1", ["http://s/7_2.html"]⟩
               else if u = "http://s/7_2.html" then
                 Except.ok ⟨"", "Part2", ["http://s/7_1.html"]⟩
               else Except.error "404") "http://s/7_2.html" =
             some "http://s/7_1.html" from rfl] at hv
         cases hv
         decide)⟩

/-- C8: multi-page chapter join.  Along any linear page chain (each page's
next link leads to the following page, the last page has none, all URLs
distinct), the loop's accumulated content is exactly the non-empty trimmed
page texts joined in visit order by the blank-line separator `"\n\n"`, and
`downloadChapterPages` returns that joined text (finally `.trim()`-ed,
which is the identity here since the parts are trimmed and non-empty at the
edges).  The claim's two-page "Part1"/"Part2" instance is checked in the
witness. -/
theorem claim_C8_multipage_join (parse : String → String → Except String String)
    (baseUrl : String) (page : String → Except String PageData)
    (chain : List (String × PageData)) (u : String) (p : PageData) (fuel : Nat)
    (hchain : chainOk parse baseUrl page ((u, p) :: chain) = true)
    (hnd : (((u, p) :: chain).map Prod.fst).Nodup)
    (hfuel : chain.length < fuel) :
    (chapterLoopGo parse baseUrl page fuel (some u) [] "" "").2.1 =
      sepJoin "\n\n"
        ((((u, p) :: chain).map (fun x => jsTrim x.2.bodyText)).filter
          (fun s => s ≠ "")) ∧
    (downloadChapterPages parse baseUrl page fuel u).2 =
      jsTrim (sepJoin "\n\n"
        ((((u, p) :: chain).map (fun x => jsTrim x.2.bodyText)).filter
          (fun s => s ≠ ""))) := by
  have h1 := chapterLoopGo_chain parse baseUrl page chain u p [] "" "" fuel
    hchain hnd (fun x _ => List.not_mem_nil x) hfuel
  have h2 := foldl_joinStep_sepJoin
    (((u, p) :: chain).map (fun x => jsTrim x.2.bodyText)) ""
  rw [if_pos rfl] at h2
  constructor
  · rw [h1, h2]
  · show jsTrim (chapterLoopGo parse baseUrl page fuel (some u) [] "" "").2.1 = _
    rw [h1, h2]

/-- Concrete two-page chapter for the C8 witness: "Part1" then "Part2". -/
def c8page : String → Except String PageData := fun u =>
  if u = "http://s/7_1.html" then .ok ⟨"", "Part1", ["http://s/7_2.html"]⟩
  else if u = "http://s/7_2.html" then .ok ⟨"", "Part2", []⟩
  else .error "404"

def c8chain : List (String × PageData) :=
  [("http://s/7_1.html", ⟨"", "Part1", ["http://s/7_2.html"]⟩),
   ("http://s/7_2.html", ⟨"", "Part2", []⟩)]

theorem claim_C8_multipage_join_witness :
    (chainOk (fun _ _ => .error "no-parse") "http://s" c8page c8chain = true) ∧
    ((c8chain.map Prod.fst).Nodup) ∧
    ((c8chain.tail).length < 5) ∧
    ((downloadChapterPages (fun _ _ => .error "no-parse") "http://s" c8page 5
        "http://s/7_1.html").2 =
      jsTrim (sepJoin "\n\n"
        ((c8chain.map (fun x => jsTrim x.2.bodyText)).filter (fun s => s ≠ "")))) ∧
    jsTrim (sepJoin "\n\n"
        ((c8chain.map (fun x => jsTrim x.2.bodyText)).filter (fun s => s ≠ ""))) =
      "Part1\n\nPart2" :=
  ⟨rfl, by decide, by decide,
   (claim_C8_multipage_join (fun _ _ => .error "no-parse") "http://s" c8page
      (c8chain.tail) "http://s/7_1.html" ⟨"", "Part1", ["http://s/7_2.html"]⟩ 5
      rfl (by decide) (by decide)).2,
   by decide⟩

/-- C2 counterexample: a chapter whose very first page fetch fails after
exhausting retries is still counted successful.  The page-following loop's
`try/catch` wraps the *first* iteration too: the failure `break`s the loop,
`downloadChapterPages` resolves normally with empty content, and the task
returns `success: true` — where the claim requires `success = false`. -/
theorem claim_C2_counterexample :
    downloadAllChapters (fun _ _ => .error "no-parse") "http://s"
        (fun _ => .error "ECONNREFUSED") 3 [⟨"http://e/1.html", "第一章"⟩] =
      [⟨0, "未知标题", "", true, none⟩] ∧
    (downloadAllChapters (fun _ _ => .error "no-parse") "http://s"
        (fun _ => .error "ECONNREFUSED") 3 [⟨"http://e/1.html", "第一章"⟩]).map
      (fun r => r.success) = [true] :=
  ⟨rfl, rfl⟩

/-- C2 (amended): the downloader never marks a ChapterResult unsuccessful on
fetch errors.  Every `await` of the page-following loop sits inside the
loop's `try`, whose `catch` `break`s and keeps the accumulated (possibly
empty) content — including when the very first page's fetch fails after
exhausting retries — so the per-chapter task never rejects and every result
carries `success = true` with no error reason; the `success: false`
branches in `downloadAllChapters` are unreachable for fetch errors. -/
theorem claim_C2_success_always (parse : String → String → Except String String)
    (baseUrl : String) (page : String → Except String PageData)
    (fuel : Nat) (chapters : List ChapterRef) :
    (downloadAllChapters parse baseUrl page fuel chapters).all
      (fun r => r.success && r.error.isNone) = true := by
  unfold downloadAllChapters
  rw [List.all_eq_true]
  intro r hr
  simp only [List.mem_map] at hr
  obtain ⟨⟨i, ch⟩, -, rfl⟩ := hr
  rfl

/-- C7: for every chapter list, the downloader's settled result list has
exactly one ChapterResult per ChapterRef: its length is N, its `index`
values are exactly `0..N-1` in order (no gaps, no duplicates), and the i-th
result is precisely the download of the i-th discovered chapter tagged with
index i. -/
theorem claim_C7_result_indexing (parse : String → String → Except String String)
    (baseUrl : String) (page : String → Except String PageData)
    (fuel : Nat) (chapters : List ChapterRef) :
    (downloadAllChapters parse baseUrl page fuel chapters).length =
      chapters.length ∧
    (downloadAllChapters parse baseUrl page fuel chapters).map
      (fun r => r.index) = List.range chapters.length ∧
    ∀ i, (downloadAllChapters parse baseUrl page fuel chapters).get? i =
      (chapters.get? i).map
        (fun ch => downloadOneChapter parse baseUrl page fuel ch i) := by
  refine ⟨?_, ?_, ?_⟩
  · simp [downloadAllChapters, List.enum_length]
  · unfold downloadAllChapters
    rw [List.map_map]
    have hfun : ((fun r => r.index) ∘
        (fun p => downloadOneChapter parse baseUrl page fuel p.2 p.1)) =
        (Prod.fst : Nat × ChapterRef → Nat) := by
      funext p
      rfl
    rw [hfun]
    exact List.enum_map_fst chapters
  · intro i
    unfold downloadAllChapters
    rw [List.get?_map, List.enum_get?]
    cases chapters.get? i <;> rfl

theorem sorted_idxLt_of_sorted_idxLe {l : List ChapterResult}
    (hle : List.Sorted idxLe l) (hnd : (l.map (fun r => r.index)).Nodup) :
    List.Sorted idxLt l := by
  have hne : l.Pairwise (fun a b => a.index ≠ b.index) :=
    (List.pairwise_map).mp hnd
  exact (hle.and hne).imp (fun h => Nat.lt_of_le_of_ne h.1 h.2)

theorem sortByIndex_eq_of_perm (l₁ l₂ : List ChapterResult)
    (hperm : l₁.Perm l₂) (hnd : (l₂.map (fun r => r.index)).Nodup) :
    sortByIndex l₁ = sortByIndex l₂ := by
  have hp : (sortByIndex l₁).Perm (sortByIndex l₂) :=
    ((List.perm_insertionSort idxLe l₁).trans hperm).trans
      (List.perm_insertionSort idxLe l₂).symm
  have hnd2 : ((sortByIndex l₂).map (fun r => r.index)).Nodup :=
    (((List.perm_insertionSort idxLe l₂).map (fun r => r.index)).nodup_iff).mpr hnd
  have hnd1 : ((sortByIndex l₁).map (fun r => r.index)).Nodup :=
    ((hp.map (fun r => r.index)).nodup_iff).mpr hnd2
  exact List.eq_of_perm_of_sorted hp
    (sorted_idxLt_of_sorted_idxLe (List.sorted_insertionSort idxLe l₁) hnd1)
    (sorted_idxLt_of_sorted_idxLe (List.sorted_insertionSort idxLe l₂) hnd2)

/-- C1: order invariance of the merge.  For a complete result set (indices a
permutation of `0..N-1`) and any completion/arrival permutation of it, the
merged document is identical, and the chapter blocks appear in ascending
`index` order: the sorted sequence's indices are exactly `0, 1, …, N-1` —
the discovery order — independent of the order the results arrived in. -/
theorem claim_C1_merge_order_invariant (l l' : List ChapterResult)
    (bookTitle : String) (hperm : l'.Perm l)
    (hidx : (l.map (fun r => r.index)).Perm (List.range l.length)) :
    mergeToFile l' bookTitle = mergeToFile l bookTitle ∧
    (sortByIndex l').map (fun r => r.index) = List.range l.length ∧
    (sortByIndex l).map (fun r => r.index) = List.range l.length := by
  have hnd : (l.map (fun r => r.index)).Nodup :=
    hidx.nodup_iff.mpr (List.nodup_range l.length)
  have hsorteq : sortByIndex l' = sortByIndex l :=
    sortByIndex_eq_of_perm l' l hperm hnd
  have hmain : (sortByIndex l).map (fun r => r.index) = List.range l.length := by
    have hp : ((sortByIndex l).map (fun r => r.index)).Perm (List.range l.length) :=
      ((List.perm_insertionSort idxLe l).map (fun r => r.index)).trans hidx
    have hs1 : List.Sorted (· ≤ ·) ((sortByIndex l).map (fun r => r.index)) :=
      (List.pairwise_map).mpr (List.sorted_insertionSort idxLe l)
    have hs2 : List.Sorted (· ≤ ·) (List.range l.length) :=
      (List.pairwise_lt_range l.length).imp (fun h => Nat.le_of_lt h)
    exact List.eq_of_perm_of_sorted hp hs1 hs2
  refine ⟨?_, ?_, hmain⟩
  · unfold mergeToFile
    rw [hsorteq]
  · rw [hsorteq]
    exact hmain

theorem claim_C1_merge_order_invariant_witness :
    (([⟨2, "C", "cc", true, none⟩, ⟨0, "A", "", false, some "timeout"⟩,
        ⟨1, "B", "bb", true, none⟩] : List ChapterResult).Perm
      [⟨0, "A", "", false, some "timeout"⟩, ⟨1, "B", "bb", true, none⟩,
        ⟨2, "C", "cc", true, none⟩]) ∧
    ((([⟨0, "A", "", false, some "timeout"⟩, ⟨1, "B", "bb", true, none⟩,
        ⟨2, "C", "cc", true, none⟩] : List ChapterResult).map
      (fun r => r.index)).Perm (List.range 3)) ∧
    (mergeToFile ([⟨2, "C", "cc", true, none⟩, ⟨0, "A", "", false, some "timeout"⟩,
        ⟨1, "B", "bb", true, none⟩] : List ChapterResult) "书" =
      mergeToFile ([⟨0, "A", "", false, some "timeout"⟩, ⟨1, "B", "bb", true, none⟩,
        ⟨2, "C", "cc", true, none⟩] : List ChapterResult) "书" ∧
    (sortByIndex ([⟨2, "C", "cc", true, none⟩, ⟨0, "A", "", false, some "timeout"⟩,
        ⟨1, "B", "bb", true, none⟩] : List ChapterResult)).map (fun r => r.index) =
      List.range 3 ∧
    (sortByIndex ([⟨0, "A", "", false, some "timeout"⟩, ⟨1, "B", "bb", true, none⟩,
        ⟨2, "C", "cc", true, none⟩] : List ChapterResult)).map (fun r => r.index) =
      List.range 3) :=
  ⟨by decide, by decide,
   claim_C1_merge_order_invariant
     [⟨2, "C", "cc", true, none⟩, ⟨0, "A", "", false, some "timeout"⟩,
       ⟨1, "B", "bb", true, none⟩]
     [⟨0, "A", "", false, some "timeout"⟩, ⟨1, "B", "bb", true, none⟩,
       ⟨2, "C", "cc", true, none⟩] "书" (by decide) (by decide)⟩

end Ebook

